import Mathlib

/-!
# Verification of the checkers rules engine

A shallow embedding of `src/checkers_game.py` (class `CheckersGame`), together
with theorems settling the frozen claims about it.

The board is a list of 8 rows of 8 `Piece` cells, mirroring the Python list of
lists.  Coordinates are `Int` (Python ints); indexing helpers perform the same
bounds checks as the Python code.  All definitions are executable so that
concrete games can be evaluated by `decide`.
-/

namespace Checkers

/-- The five piece kinds of `class Piece(Enum)` (checkers_game.py lines 8-14). -/
inductive Piece where
  | EMPTY
  | RED
  | RED_KING
  | BLACK
  | BLACK_KING
deriving DecidableEq, Repr

open Piece

/-- `piece in [Piece.RED, Piece.RED_KING]` as used throughout the Python code. -/
def pieceIsRed : Piece → Bool
  | RED => true
  | RED_KING => true
  | _ => false

/-- `piece in [Piece.BLACK, Piece.BLACK_KING]` as used throughout the Python code. -/
def pieceIsBlack : Piece → Bool
  | BLACK => true
  | BLACK_KING => true
  | _ => false

/-- `piece in [Piece.RED_KING, Piece.BLACK_KING]` (king test). -/
def pieceIsKing : Piece → Bool
  | RED_KING => true
  | BLACK_KING => true
  | _ => false

/-- The board: `self.board`, a list of rows, each a list of cells. -/
abbrev Board := List (List Piece)

/-- Raw cell read `self.board[row][col]` (only ever used in the Python code at
in-range indices; out-of-range reads default to `EMPTY` here). -/
def boardGet (b : Board) (row col : Int) : Piece :=
  (b.getD row.toNat []).getD col.toNat EMPTY

/-- Raw cell write `self.board[row][col] = p` (only ever used in the Python code
at in-range indices; out-of-range writes are a no-op here). -/
def boardSet (b : Board) (row col : Int) (p : Piece) : Board :=
  b.set row.toNat ((b.getD row.toNat []).set col.toNat p)

/-- `is_valid_position` (lines 43-45): both coordinates in `[0, 8)`. -/
def is_valid_position (row col : Int) : Prop :=
  0 ≤ row ∧ row < 8 ∧ 0 ≤ col ∧ col < 8

instance (row col : Int) : Decidable (is_valid_position row col) := by
  unfold is_valid_position; infer_instance

/-- `get_piece` (lines 51-55): bounds-checked read, `EMPTY` when off-board. -/
def get_piece (b : Board) (row col : Int) : Piece :=
  if is_valid_position row col then boardGet b row col else EMPTY

/-- The direction list built at lines 74-80 (and again at lines 98-104):
up-moves for red men and kings, down-moves for black men and kings. -/
def directionsFor (is_king is_red : Bool) : List (Int × Int) :=
  (if is_king || is_red then [(-1, -1), (-1, 1)] else []) ++
  (if is_king || !is_red then [(1, -1), (1, 1)] else [])

/-- `_get_jump_moves` (lines 95-130): capture destinations of the piece at
`(row, col)` with the given king/red flags. -/
def get_jump_moves (b : Board) (row col : Int) (is_king is_red : Bool) :
    List (Int × Int) :=
  (directionsFor is_king is_red).filterMap fun d =>
    if ¬ is_valid_position (row + 2*d.1) (col + 2*d.2) then none
    else if get_piece b (row + 2*d.1) (col + 2*d.2) ≠ EMPTY then none
    else if is_red then
      if ¬ pieceIsBlack (get_piece b (row + d.1) (col + d.2)) then none
      else some (row + 2*d.1, col + 2*d.2)
    else
      if ¬ pieceIsRed (get_piece b (row + d.1) (col + d.2)) then none
      else some (row + 2*d.1, col + 2*d.2)

/-- `get_valid_moves` (lines 57-93): all legal destinations of the piece at
`(row, col)` for the side `cp` to move (`self.current_player`); jump moves
are mandatory when available. -/
def get_valid_moves (b : Board) (cp : Piece) (row col : Int) :
    List (Int × Int) :=
  let piece := get_piece b row col
  if piece = EMPTY then []
  else if ¬ pieceIsRed piece ∧ cp = RED then []
  else if ¬ pieceIsBlack piece ∧ cp = BLACK then []
  else
    let is_king := pieceIsKing piece
    let is_red := pieceIsRed piece
    let moves := (directionsFor is_king is_red).filterMap fun d =>
      if is_valid_position (row + d.1) (col + d.2) ∧
         get_piece b (row + d.1) (col + d.2) = EMPTY then
        some (row + d.1, col + d.2)
      else none
    let jump_moves := get_jump_moves b row col is_king is_red
    if jump_moves ≠ [] then jump_moves else moves

/-- `_has_jumps` (lines 169-178): the piece at `(row, col)` has a capture. -/
def has_jumps (b : Board) (row col : Int) : Bool :=
  let piece := get_piece b row col
  if piece = EMPTY then false
  else !(get_jump_moves b row col (pieceIsKing piece) (pieceIsRed piece)).isEmpty

/-- The piece counting in `_check_game_over` (lines 182-183):
`sum(1 for row in self.board for piece in row if isColor piece)`. -/
def piece_count (b : Board) (isColor : Piece → Bool) : Nat :=
  (b.map fun row => row.countP isColor).sum

/-- The game state: `self.board`, `self.current_player`, `self.game_over`,
`self.winner` (lines 22-26). -/
structure CheckersGame where
  board : Board
  current_player : Piece
  game_over : Bool
  winner : Option Piece
deriving DecidableEq, Repr

/-- The `has_moves` scan of `_check_game_over` (lines 193-203): some square of
the side to move has a nonempty `get_valid_moves`. -/
def has_any_moves (b : Board) (cp : Piece) : Bool :=
  (List.range 8).any fun row => (List.range 8).any fun col =>
    let piece := get_piece b (row : Int) (col : Int)
    (decide ((cp = RED ∧ pieceIsRed piece = true) ∨
             (cp = BLACK ∧ pieceIsBlack piece = true))) &&
    !(get_valid_moves b cp (row : Int) (col : Int)).isEmpty

/-- `_check_game_over` (lines 180-207): elimination check, then the
no-moves-for-`current_player` check.  Note that it reads `self.current_player`
as it stands when called, i.e. in `make_move` it runs *before* the turn
switch. -/
def check_game_over (g : CheckersGame) : CheckersGame :=
  let g1 :=
    if piece_count g.board pieceIsRed = 0 then
      { g with game_over := true, winner := some BLACK }
    else if piece_count g.board pieceIsBlack = 0 then
      { g with game_over := true, winner := some RED }
    else g
  if has_any_moves g1.board g1.current_player = false ∧ g1.game_over = false then
    { g1 with game_over := true,
              winner := some (if g1.current_player = RED then BLACK else RED) }
  else g1

/-- The promotion step of `make_move` (lines 152-156): a red man landing on
row 0, or a black man landing on row 7, becomes the corresponding king. -/
def movedPiece (p : Piece) (to_row : Int) : Piece :=
  if p = RED ∧ to_row = 0 then RED_KING
  else if p = BLACK ∧ to_row = 7 then BLACK_KING
  else p

/-- The board updates of `make_move` (lines 141-158): clear the origin, clear
the jumped square when the move is a jump, place the (possibly promoted)
piece on the destination. -/
def moveBoard (b : Board) (from_row from_col to_row to_col : Int) : Board :=
  let piece := boardGet b from_row from_col
  let b1 := boardSet b from_row from_col EMPTY
  let b2 :=
    if (to_row - from_row).natAbs = 2 then
      boardSet b1 ((from_row + to_row) / 2) ((from_col + to_col) / 2) EMPTY
    else b1
  boardSet b2 to_row to_col (movedPiece piece to_row)

/-- `make_move` (lines 132-167).  Returns the Python `bool` result together
with the updated state (the Python method mutates `self`). -/
def make_move (g : CheckersGame) (from_row from_col to_row to_col : Int) :
    Bool × CheckersGame :=
  if g.game_over then (false, g)
  else if (to_row, to_col) ∉ get_valid_moves g.board g.current_player from_row from_col then
    (false, g)
  else
    let g1 := check_game_over { g with board := moveBoard g.board from_row from_col to_row to_col }
    let g2 :=
      if (to_row - from_row).natAbs ≠ 2 ∨ has_jumps g1.board to_row to_col = false then
        { g1 with current_player := if g1.current_player = RED then BLACK else RED }
      else g1
    (true, g2)

/-- `_initialize_board` (lines 29-41): black men on the dark squares of rows
0-2, red men on the dark squares of rows 5-7, everything else empty. -/
def initialBoard : Board :=
  (List.range 8).map fun row => (List.range 8).map fun col =>
    if (row + col) % 2 = 1 then
      if row < 3 then BLACK
      else if 5 ≤ row then RED
      else EMPTY
    else EMPTY

/-- `__init__` (lines 22-27): fresh game, red to move, game not over. -/
def initialGame : CheckersGame :=
  { board := initialBoard, current_player := RED, game_over := false, winner := none }

/-- The states reachable from a fresh game by any sequence of `make_move`
calls (successful or not). -/
inductive Reachable : CheckersGame → Prop where
  | init : Reachable initialGame
  | step (g : CheckersGame) (fr fc tr tc : Int) (h : Reachable g) :
      Reachable (make_move g fr fc tr tc).2

/-! ## The move-string parser (`parse_move`, lines 235-267)

Strings are modelled as `List Char`.  `pySplit` is Python's
`str.split(sep)` for a one-character separator, `pyStrip` is `str.strip()`,
and `pyInt` is `int(s)` returning `none` where Python raises `ValueError`
(ASCII digits with an optional sign and surrounding whitespace). -/

/-- Python `str.split(sep)` for a single-character separator. -/
def pySplit (sep : Char) : List Char → List (List Char)
  | [] => [[]]
  | c :: rest =>
    if c = sep then [] :: pySplit sep rest
    else
      match pySplit sep rest with
      | [] => [[c]]
      | r :: rs => (c :: r) :: rs

/-- Python `str.strip()`: drop leading and trailing whitespace. -/
def pyStrip (s : List Char) : List Char :=
  ((s.dropWhile Char.isWhitespace).reverse.dropWhile Char.isWhitespace).reverse

/-- The numeric value of a digit string, most significant digit first. -/
def digitsVal (cs : List Char) : Nat :=
  cs.foldl (fun acc ch => 10 * acc + (ch.toNat - 48)) 0

/-- A nonempty all-digit string parses to its value; anything else fails. -/
def parseDigits (cs : List Char) : Option Nat :=
  if cs ≠ [] ∧ cs.all Char.isDigit then some (digitsVal cs) else none

/-- Python `int(s)`: strip, optional sign, then digits. -/
def pyInt (s : List Char) : Option Int :=
  match pyStrip s with
  | [] => none
  | ch :: rest =>
    if ch = '-' then (parseDigits rest).map (fun n => -(n : Int))
    else if ch = '+' then (parseDigits rest).map (fun n => (n : Int))
    else (parseDigits (ch :: rest)).map (fun n => (n : Int))

/-- The first branch of `parse_move` (lines 238-249): `R,C-R,C` with integer
fields.  Any condition failure or `int` failure falls through. -/
def tryFormat1 (s : List Char) : Option (Int × Int × Int × Int) :=
  if '-' ∈ s then
    match pySplit '-' s with
    | [p0, p1] =>
      match pySplit ',' (pyStrip p0), pySplit ',' (pyStrip p1) with
      | [a, b], [c, d] =>
        match pyInt a, pyInt b, pyInt c, pyInt d with
        | some fr, some fc, some tr, some tc => some (fr, fc, tr, tc)
        | _, _, _, _ => none
      | _, _ => none
    | _ => none
  else none

/-- The second branch of `parse_move` (lines 251-265): algebraic
`<file><rank>-<file><rank>`, case-insensitive, file letter to column via
`ord(ch) - ord('a')`, rank digit to row via `int(ch) - 1`. -/
def tryFormat2 (s : List Char) : Option (Int × Int × Int × Int) :=
  if '-' ∈ s ∧ 5 ≤ s.length then
    match pySplit '-' s with
    | [p0, p1] =>
      match (pyStrip p0).map Char.toLower, (pyStrip p1).map Char.toLower with
      | fc :: fr :: _, tc :: tr :: _ =>
        match pyInt [fr], pyInt [tr] with
        | some frv, some trv =>
          some (frv - 1, (fc.toNat : Int) - 97, trv - 1, (tc.toNat : Int) - 97)
        | _, _ => none
      | _, _ => none
    | _ => none
  else none

/-- `parse_move` (lines 235-267): try the comma form, then the algebraic
form; `none` when both fail. -/
def parse_move (s : List Char) : Option (Int × Int × Int × Int) :=
  match tryFormat1 s with
  | some r => some r
  | none => tryFormat2 s

/-- Wellformedness of a board: 8 rows of 8 cells, as guaranteed by
`__init__` and preserved by every in-range write. -/
def BoardWF (b : Board) : Prop :=
  b.length = 8 ∧ ∀ row ∈ b, row.length = 8

/-- An empty 8×8 board, used to build concrete test positions. -/
def emptyBoard : Board :=
  List.replicate 8 (List.replicate 8 EMPTY)

/-- Stated from the spec wording of §4.1 step 3 (for comparison with the code's
`_get_jump_moves`): a capture is available from `(row, col)` in direction `d`
if the cell two steps away is on-board and empty and the adjacent diagonal
cell holds an opponent piece. -/
def capture_available (b : Board) (row col : Int) (is_red : Bool)
    (d : Int × Int) : Prop :=
  is_valid_position (row + 2*d.1) (col + 2*d.2) ∧
  get_piece b (row + 2*d.1) (col + 2*d.2) = EMPTY ∧
  ((is_red = true ∧ pieceIsBlack (get_piece b (row + d.1) (col + d.2)) = true) ∨
   (is_red = false ∧ pieceIsRed (get_piece b (row + d.1) (col + d.2)) = true))

/-- Stated from the spec wording of §4.1 step 4 (for comparison with the code's
simple-move loop): a simple step is available from `(row, col)` in direction
`d` if the adjacent diagonal cell is on-board and empty. -/
def step_available (b : Board) (row col : Int) (d : Int × Int) : Prop :=
  is_valid_position (row + d.1) (col + d.2) ∧
  get_piece b (row + d.1) (col + d.2) = EMPTY

instance (b : Board) (row col : Int) (r : Bool) :
    DecidablePred (capture_available b row col r) := fun d => by
  unfold capture_available; infer_instance

instance (b : Board) (row col : Int) :
    DecidablePred (step_available b row col) := fun d => by
  unfold step_available; infer_instance

/-- A test position for the terminal check: a black man on (0, 1) and a red
man on (2, 1). -/
def c1Board : Board :=
  boardSet (boardSet emptyBoard 0 1 BLACK) 2 1 RED

/-- The test game: red to move in `c1Board`. -/
def c1Game : CheckersGame :=
  { board := c1Board, current_player := RED, game_over := false, winner := none }

/-! ## Helper lemmas -/

theorem listGetD_set_self {α : Type} (l : List α) (n : Nat) (d a : α)
    (h : n < l.length) : (l.set n a).getD n d = a := by
  induction l generalizing n with
  | nil => simp at h
  | cons x xs ih =>
    cases n with
    | zero => rfl
    | succ m => exact ih m (by simpa using h)

theorem listGetD_set_ne {α : Type} (l : List α) (n m : Nat) (d a : α)
    (h : n ≠ m) : (l.set n a).getD m d = l.getD m d := by
  induction l generalizing n m with
  | nil => rfl
  | cons x xs ih =>
    cases n with
    | zero =>
      cases m with
      | zero => exact absurd rfl h
      | succ k => rfl
    | succ j =>
      cases m with
      | zero => rfl
      | succ k => exact ih j k (by omega)

theorem listGetD_mem {α : Type} (l : List α) (n : Nat) (d : α)
    (h : n < l.length) : l.getD n d ∈ l := by
  induction l generalizing n with
  | nil => simp at h
  | cons x xs ih =>
    cases n with
    | zero => exact List.mem_cons_self _ _
    | succ m => exact List.mem_cons_of_mem _ (ih m (by simpa using h))

theorem listSet_eq_of_le {α : Type} (l : List α) (n : Nat) (a : α)
    (h : l.length ≤ n) : l.set n a = l := by
  induction l generalizing n with
  | nil => rfl
  | cons x xs ih =>
    cases n with
    | zero => simp at h
    | succ m => simp only [List.set]; rw [ih m (by simpa using h)]

theorem boardWF_boardSet {b : Board} (hwf : BoardWF b) (r c : Int) (p : Piece) :
    BoardWF (boardSet b r c p) := by
  obtain ⟨hlen, hrows⟩ := hwf
  by_cases hn : r.toNat < b.length
  · refine ⟨?_, ?_⟩
    · rw [boardSet, List.length_set]; exact hlen
    · intro row hrow
      rcases List.mem_or_eq_of_mem_set hrow with h | h
      · exact hrows row h
      · subst h
        rw [List.length_set]
        exact hrows _ (listGetD_mem b r.toNat [] hn)
  · rw [boardSet, listSet_eq_of_le _ _ _ (by omega)]
    exact ⟨hlen, hrows⟩

theorem boardGet_boardSet_self {b : Board} (hwf : BoardWF b) {r c : Int}
    (p : Piece) (hv : is_valid_position r c) :
    boardGet (boardSet b r c p) r c = p := by
  obtain ⟨hr0, hr8, hc0, hc8⟩ := hv
  have hblen : b.length = 8 := hwf.1
  have hn : r.toNat < b.length := by omega
  have hrow : (b.getD r.toNat []).length = 8 :=
    hwf.2 _ (listGetD_mem b r.toNat [] hn)
  have hm : c.toNat < (b.getD r.toNat []).length := by omega
  unfold boardGet boardSet
  rw [listGetD_set_self _ _ _ _ hn, listGetD_set_self _ _ _ _ hm]

theorem boardGet_boardSet_ne {b : Board} (hwf : BoardWF b) {r c r' c' : Int}
    (p : Piece) (hw : is_valid_position r c) (hv : is_valid_position r' c')
    (hne : (r', c') ≠ (r, c)) :
    boardGet (boardSet b r' c' p) r c = boardGet b r c := by
  obtain ⟨hr0, hr8, hc0, hc8⟩ := hw
  obtain ⟨hr0', hr8', hc0', hc8'⟩ := hv
  have hblen : b.length = 8 := hwf.1
  unfold boardGet boardSet
  by_cases hr : r'.toNat = r.toNat
  · have hrr : r' = r := by omega
    have hcc : c' ≠ c := by
      intro h; exact hne (by rw [hrr, h])
    have hcn : c'.toNat ≠ c.toNat := by omega
    have hn : r.toNat < b.length := by omega
    rw [hr, listGetD_set_self _ _ _ _ hn, listGetD_set_ne _ _ _ _ _ hcn]
  · rw [listGetD_set_ne _ _ _ _ _ hr]

theorem initialBoard_WF : BoardWF initialBoard := by
  constructor
  · decide
  · decide

/-- `check_game_over` never touches the board or the side to move, and either
leaves `game_over`/`winner` alone or ends the game with a colored winner. -/
theorem cgo_fields (g : CheckersGame) :
    (check_game_over g).board = g.board ∧
    (check_game_over g).current_player = g.current_player ∧
    (((check_game_over g).game_over = g.game_over ∧
      (check_game_over g).winner = g.winner) ∨
     ((check_game_over g).game_over = true ∧
      ((check_game_over g).winner = some RED ∨
       (check_game_over g).winner = some BLACK))) := by
  simp only [check_game_over]
  split_ifs <;> simp

theorem toggle_ne (p : Piece) : (if p = RED then BLACK else RED) ≠ p := by
  cases p <;> simp

/-- On a successful move, `make_move` returns `true` together with the state
obtained by updating the board, running `check_game_over`, and then switching
the player unless a capture can be continued. -/
theorem make_move_success_eq (g : CheckersGame) (fr fc tr tc : Int)
    (hgo : g.game_over = false)
    (hmem : (tr, tc) ∈ get_valid_moves g.board g.current_player fr fc) :
    make_move g fr fc tr tc =
      (true,
       if (tr - fr).natAbs ≠ 2 ∨
          has_jumps (check_game_over { g with board := moveBoard g.board fr fc tr tc }).board tr tc = false then
         { check_game_over { g with board := moveBoard g.board fr fc tr tc } with
           current_player :=
             if (check_game_over { g with board := moveBoard g.board fr fc tr tc }).current_player = RED
             then BLACK else RED }
       else check_game_over { g with board := moveBoard g.board fr fc tr tc }) := by
  simp [make_move, hgo, hmem]

/-! ## Claims -/

/-- C7: `newGame` produces the standard opening layout: exactly 12 black men
on precisely the dark squares of rows 0-2, exactly 12 red men on precisely
the dark squares of rows 5-7, all other cells empty, game not over, no
winner, and red to move. -/
theorem initial_layout :
    initialGame.current_player = RED ∧
    initialGame.game_over = false ∧
    initialGame.winner = none ∧
    piece_count initialBoard pieceIsRed = 12 ∧
    piece_count initialBoard pieceIsBlack = 12 ∧
    (∀ r c : Fin 8, boardGet initialBoard (r : Int) (c : Int) =
      (if (r.val + c.val) % 2 = 1 then
        if r.val ≤ 2 then BLACK else if 5 ≤ r.val then RED else EMPTY
       else EMPTY)) := by
  refine ⟨rfl, rfl, rfl, by decide, by decide, by decide⟩

/-- C9: `get_piece` returns `EMPTY` for any out-of-range coordinates and the
cell contents for in-range coordinates.  It is a pure function of the board
(state is never mutated: the embedding passes state by value and `get_piece`
returns only a `Piece`). -/
theorem get_piece_spec (b : Board) (row col : Int) :
    (¬ is_valid_position row col → get_piece b row col = EMPTY) ∧
    (is_valid_position row col → get_piece b row col = boardGet b row col) := by
  constructor <;> intro h <;> simp [get_piece, h]

/-- Witness for C9: reading off-board square (9, 0) of the opening board
reports empty. -/
theorem get_piece_spec_witness : get_piece initialBoard 9 0 = EMPTY :=
  (get_piece_spec initialBoard 9 0).1 (by decide)

/-- C4: `make_move` fails, leaving the state unchanged, whenever the game is
already over or the destination is not among the legal destinations of the
origin; it is a total function, so no input (in particular no out-of-range
coordinate) can make it fail in any other way than returning `false`. -/
theorem make_move_rejects (g : CheckersGame) (fr fc tr tc : Int)
    (h : g.game_over = true ∨
         (tr, tc) ∉ get_valid_moves g.board g.current_player fr fc) :
    make_move g fr fc tr tc = (false, g) := by
  rcases h with h | h
  · simp [make_move, h]
  · by_cases hgo : g.game_over = true
    · simp [make_move, hgo]
    · simp [make_move, hgo, h]

/-- Witness for C4: on a fresh game, the out-of-range request
`(-3, 17) → (99, -99)` is rejected and the state is returned unchanged. -/
theorem make_move_rejects_witness :
    make_move initialGame (-3) 17 99 (-99) = (false, initialGame) :=
  make_move_rejects initialGame (-3) 17 99 (-99) (Or.inr (by decide))

/-- C6: in every state reachable from a fresh game by `make_move` calls,
`winner` is absent while `game_over` is false, and holds a color (red or
black) whenever `game_over` is true. -/
theorem winner_iff_game_over (g : CheckersGame) (h : Reachable g) :
    (g.game_over = false → g.winner = none) ∧
    (g.game_over = true → g.winner = some RED ∨ g.winner = some BLACK) := by
  induction h with
  | init => exact ⟨fun _ => rfl, fun h => by simp [initialGame] at h⟩
  | step g fr fc tr tc hg ih =>
    by_cases hgo : g.game_over = true
    · rw [make_move_rejects g fr fc tr tc (Or.inl hgo)]
      exact ih
    · by_cases hmem : (tr, tc) ∈ get_valid_moves g.board g.current_player fr fc
      · rw [make_move_success_eq g fr fc tr tc (by simpa using hgo) hmem]
        have hmid := cgo_fields { g with board := moveBoard g.board fr fc tr tc }
        set gm := check_game_over { g with board := moveBoard g.board fr fc tr tc } with hgm
        have hfields :
            (gm.game_over = false ∧ gm.winner = none) ∨
            (gm.game_over = true ∧ (gm.winner = some RED ∨ gm.winner = some BLACK)) := by
          rcases hmid.2.2 with ⟨h1, h2⟩ | ⟨h1, h2⟩
          · left
            refine ⟨?_, ?_⟩
            · rw [h1]; simpa using hgo
            · rw [h2]; exact ih.1 (by simpa using hgo)
          · right; exact ⟨h1, h2⟩
        by_cases hsw : (tr - fr).natAbs ≠ 2 ∨ has_jumps gm.board tr tc = false
        · simp only [if_pos hsw]
          rcases hfields with ⟨h1, h2⟩ | ⟨h1, h2⟩
          · exact ⟨fun _ => h2, fun hc => by simp [h1] at hc⟩
          · exact ⟨fun hc => by simp [h1] at hc, fun _ => h2⟩
        · simp only [if_neg hsw]
          rcases hfields with ⟨h1, h2⟩ | ⟨h1, h2⟩
          · exact ⟨fun _ => h2, fun hc => by simp [h1] at hc⟩
          · exact ⟨fun hc => by simp [h1] at hc, fun _ => h2⟩
      · rw [make_move_rejects g fr fc tr tc (Or.inr hmem)]
        exact ih

/-- Witness for C6: the fresh game is reachable, not over, and has no
winner. -/
theorem winner_iff_game_over_witness :
    (initialGame.game_over = false → initialGame.winner = none) ∧
    (initialGame.game_over = true →
      initialGame.winner = some RED ∨ initialGame.winner = some BLACK) :=
  winner_iff_game_over initialGame Reachable.init

/-! ### Character and string helper lemmas for the parser -/

theorem digit_not_dash {c : Char} (h : c.isDigit = true) : ¬ (c = '-') := by
  rintro rfl; exact absurd h (by decide)

theorem digit_not_plus {c : Char} (h : c.isDigit = true) : ¬ (c = '+') := by
  rintro rfl; exact absurd h (by decide)

theorem digit_not_comma {c : Char} (h : c.isDigit = true) : ¬ (c = ',') := by
  rintro rfl; exact absurd h (by decide)

theorem digit_not_ws {c : Char} (h : c.isDigit = true) : c.isWhitespace = false := by
  cases hw : c.isWhitespace
  · rfl
  · exfalso
    simp only [Char.isWhitespace, Bool.or_eq_true, decide_eq_true_eq] at hw
    rcases hw with ((rfl | rfl) | rfl) | rfl <;> exact absurd h (by decide)

theorem alpha_not_dash {c : Char} (h : c.isAlpha = true) : ¬ (c = '-') := by
  rintro rfl; exact absurd h (by decide)

theorem alpha_not_comma {c : Char} (h : c.isAlpha = true) : ¬ (c = ',') := by
  rintro rfl; exact absurd h (by decide)

theorem alpha_not_ws {c : Char} (h : c.isAlpha = true) : c.isWhitespace = false := by
  cases hw : c.isWhitespace
  · rfl
  · exfalso
    simp only [Char.isWhitespace, Bool.or_eq_true, decide_eq_true_eq] at hw
    rcases hw with ((rfl | rfl) | rfl) | rfl <;> exact absurd h (by decide)

theorem digit_toLower {c : Char} (h : c.isDigit = true) : c.toLower = c := by
  simp only [Char.isDigit, Bool.and_eq_true, decide_eq_true_eq] at h
  have h3 : c.val.toNat ≤ 57 := UInt32.toNat_le_of_le (by decide) h.2
  unfold Char.toLower
  rw [if_neg]
  rintro ⟨ha, _⟩
  have h4 : 65 ≤ c.val.toNat := ha
  omega

theorem dropWhile_eq_self_of {α : Type} (p : α → Bool) (l : List α)
    (h : ∀ x ∈ l, p x = false) : l.dropWhile p = l := by
  cases l with
  | nil => rfl
  | cons x xs =>
    rw [List.dropWhile_cons, if_neg]
    rw [h x (List.mem_cons_self x xs)]
    simp

theorem pyStrip_eq_self {s : List Char}
    (h : ∀ c ∈ s, c.isWhitespace = false) : pyStrip s = s := by
  unfold pyStrip
  rw [dropWhile_eq_self_of _ _ h]
  rw [dropWhile_eq_self_of _ _ (fun x hx => h x (List.mem_reverse.mp hx))]
  exact List.reverse_reverse s

theorem pySplit_no_sep (sep : Char) (a : List Char) (h : sep ∉ a) :
    pySplit sep a = [a] := by
  induction a with
  | nil => rfl
  | cons c rest ih =>
    have hc : ¬ (c = sep) := fun hh => h (hh ▸ List.mem_cons_self c rest)
    rw [pySplit, if_neg hc, ih (fun hm => h (List.mem_cons_of_mem c hm))]

theorem pySplit_sep_append (sep : Char) (a b : List Char) (h : sep ∉ a) :
    pySplit sep (a ++ sep :: b) = a :: pySplit sep b := by
  induction a with
  | nil => simp [pySplit]
  | cons c rest ih =>
    have hc : ¬ (c = sep) := fun hh => h (hh ▸ List.mem_cons_self c rest)
    rw [List.cons_append, pySplit, if_neg hc,
        ih (fun hm => h (List.mem_cons_of_mem c hm))]

theorem parseDigits_all (a : List Char) (h1 : a ≠ [])
    (h2 : a.all Char.isDigit = true) : parseDigits a = some (digitsVal a) := by
  unfold parseDigits
  rw [if_pos ⟨h1, h2⟩]

theorem pyInt_digits (a : List Char) (h1 : a ≠ [])
    (h2 : a.all Char.isDigit = true) :
    pyInt a = some ((digitsVal a : Nat) : Int) := by
  have hd : ∀ c ∈ a, c.isDigit = true := by
    intro c hc; exact List.all_eq_true.mp h2 c hc
  have hnw : ∀ c ∈ a, c.isWhitespace = false := fun c hc => digit_not_ws (hd c hc)
  cases a with
  | nil => exact absurd rfl h1
  | cons ch rest =>
    have hch : ch.isDigit = true := hd ch (List.mem_cons_self ch rest)
    simp only [pyInt, pyStrip_eq_self hnw]
    rw [if_neg (digit_not_dash hch), if_neg (digit_not_plus hch),
        parseDigits_all _ h1 h2]
    rfl

theorem digits_no_dash {a : List Char} (h : a.all Char.isDigit = true) :
    '-' ∉ a := by
  intro hm
  exact absurd (List.all_eq_true.mp h '-' hm) (by decide)

theorem digits_no_comma {a : List Char} (h : a.all Char.isDigit = true) :
    ',' ∉ a := by
  intro hm
  exact absurd (List.all_eq_true.mp h ',' hm) (by decide)

theorem digits_no_ws {a : List Char} (h : a.all Char.isDigit = true) :
    ∀ c ∈ a, c.isWhitespace = false :=
  fun c hc => digit_not_ws (List.all_eq_true.mp h c hc)

/-- C5 counterexample: the inputs `'z9-x8'` and `'12-34'`, which the claim
lists as malformed (single characters outside the documented file/rank
ranges) and thus requiring a `None` result, are in fact parsed to coordinate
tuples by the algebraic fallback branch. -/
theorem parse_move_no_range_check :
    parse_move ['z', '9', '-', 'x', '8'] = some (8, 25, 7, 23) ∧
    parse_move ['1', '2', '-', '3', '4'] = some (1, -48, 3, -46) := by
  exact ⟨by decide, by decide⟩

/-- C5 amended: wrong hyphen-separator count (zero or more than one hyphen)
yields no parse, as do inputs that fail the numeric checks of both forms
(e.g. `'ab-cd'`); but single characters outside the documented file/rank
ranges are not rejected — the parser performs no range validation on files,
ranks, rows, or columns. -/
theorem parse_move_malformed :
    (∀ s : List Char, (pySplit '-' s).length ≠ 2 → parse_move s = none) ∧
    parse_move ['a', 'b', '-', 'c', 'd'] = none := by
  constructor
  · intro s h
    have h1 : tryFormat1 s = none := by
      unfold tryFormat1
      by_cases hm : '-' ∈ s
      · rw [if_pos hm]
        rcases hsp : pySplit '-' s with _ | ⟨p0, _ | ⟨p1, _ | ⟨p2, ps⟩⟩⟩
        · rfl
        · rfl
        · rw [hsp] at h; simp at h
        · rfl
      · rw [if_neg hm]
    have h2 : tryFormat2 s = none := by
      unfold tryFormat2
      by_cases hm : '-' ∈ s ∧ 5 ≤ s.length
      · rw [if_pos hm]
        rcases hsp : pySplit '-' s with _ | ⟨p0, _ | ⟨p1, _ | ⟨p2, ps⟩⟩⟩
        · rfl
        · rfl
        · rw [hsp] at h; simp at h
        · rfl
      · rw [if_neg hm]
    unfold parse_move
    rw [h1, h2]
  · decide

/-- Witness for C5 (amended): a string with no separator yields no parse. -/
theorem parse_move_malformed_witness : parse_move ['1', '2', '3'] = none :=
  parse_move_malformed.1 ['1', '2', '3'] (by decide)

/-- C8: well-formed inputs parse as documented.  Comma form: digit fields
`R,C-R,C` parse to the four integers.  Algebraic form: a letter file and a
digit rank per square parse with the file mapped case-insensitively to a
column (`a` to 0, `b` to 1, ...) and the rank digit `d` mapped to row
`d - 1`. -/
theorem parse_move_well_formed :
    (∀ a b c d : List Char,
      a ≠ [] → b ≠ [] → c ≠ [] → d ≠ [] →
      a.all Char.isDigit = true → b.all Char.isDigit = true →
      c.all Char.isDigit = true → d.all Char.isDigit = true →
      parse_move ((a ++ ',' :: b) ++ '-' :: (c ++ ',' :: d)) =
        some ((digitsVal a : Int), (digitsVal b : Int),
              (digitsVal c : Int), (digitsVal d : Int))) ∧
    (∀ f1 r1 f2 r2 : Char,
      f1.isAlpha = true → f2.isAlpha = true →
      r1.isDigit = true → r2.isDigit = true →
      parse_move [f1, r1, '-', f2, r2] =
        some (((r1.toNat - 48 : Nat) : Int) - 1, (f1.toLower.toNat : Int) - 97,
              ((r2.toNat - 48 : Nat) : Int) - 1, (f2.toLower.toNat : Int) - 97)) := by
  constructor
  · intro a b c d ha hb hc hd ha' hb' hc' hd'
    have hnd1 : '-' ∉ a ++ ',' :: b := by
      intro hm
      rcases List.mem_append.mp hm with hm | hm
      · exact digits_no_dash ha' hm
      · rcases List.mem_cons.mp hm with hm | hm
        · exact absurd hm (by decide)
        · exact digits_no_dash hb' hm
    have hnd2 : '-' ∉ c ++ ',' :: d := by
      intro hm
      rcases List.mem_append.mp hm with hm | hm
      · exact digits_no_dash hc' hm
      · rcases List.mem_cons.mp hm with hm | hm
        · exact absurd hm (by decide)
        · exact digits_no_dash hd' hm
    have hsplit : pySplit '-' ((a ++ ',' :: b) ++ '-' :: (c ++ ',' :: d)) =
        [a ++ ',' :: b, c ++ ',' :: d] := by
      rw [pySplit_sep_append _ _ _ hnd1, pySplit_no_sep _ _ hnd2]
    have hmem : '-' ∈ (a ++ ',' :: b) ++ '-' :: (c ++ ',' :: d) := by
      apply List.mem_append.mpr
      right
      exact List.mem_cons_self _ _
    have hws1 : ∀ ch ∈ a ++ ',' :: b, ch.isWhitespace = false := by
      intro ch hm
      rcases List.mem_append.mp hm with hm | hm
      · exact digits_no_ws ha' ch hm
      · rcases List.mem_cons.mp hm with rfl | hm
        · decide
        · exact digits_no_ws hb' ch hm
    have hws2 : ∀ ch ∈ c ++ ',' :: d, ch.isWhitespace = false := by
      intro ch hm
      rcases List.mem_append.mp hm with hm | hm
      · exact digits_no_ws hc' ch hm
      · rcases List.mem_cons.mp hm with rfl | hm
        · decide
        · exact digits_no_ws hd' ch hm
    have hc1 : pySplit ',' (a ++ ',' :: b) = [a, b] := by
      rw [pySplit_sep_append _ _ _ (digits_no_comma ha'),
          pySplit_no_sep _ _ (digits_no_comma hb')]
    have hc2 : pySplit ',' (c ++ ',' :: d) = [c, d] := by
      rw [pySplit_sep_append _ _ _ (digits_no_comma hc'),
          pySplit_no_sep _ _ (digits_no_comma hd')]
    have hf1 : tryFormat1 ((a ++ ',' :: b) ++ '-' :: (c ++ ',' :: d)) =
        some ((digitsVal a : Int), (digitsVal b : Int),
              (digitsVal c : Int), (digitsVal d : Int)) := by
      unfold tryFormat1
      rw [if_pos hmem]
      simp only [hsplit, pyStrip_eq_self hws1, pyStrip_eq_self hws2, hc1, hc2,
        pyInt_digits a ha ha', pyInt_digits b hb hb',
        pyInt_digits c hc hc', pyInt_digits d hd hd']
    unfold parse_move
    rw [hf1]
  · intro f1 r1 f2 r2 hf1 hf2 hr1 hr2
    have hshape : [f1, r1, '-', f2, r2] = [f1, r1] ++ '-' :: [f2, r2] := rfl
    have hn1 : '-' ∉ [f1, r1] := by
      intro hm
      rcases List.mem_cons.mp hm with hm | hm
      · exact alpha_not_dash hf1 hm.symm
      · rcases List.mem_cons.mp hm with hm | hm
        · exact digit_not_dash hr1 hm.symm
        · simp at hm
    have hn2 : '-' ∉ [f2, r2] := by
      intro hm
      rcases List.mem_cons.mp hm with hm | hm
      · exact alpha_not_dash hf2 hm.symm
      · rcases List.mem_cons.mp hm with hm | hm
        · exact digit_not_dash hr2 hm.symm
        · simp at hm
    have hsplit : pySplit '-' [f1, r1, '-', f2, r2] = [[f1, r1], [f2, r2]] := by
      rw [hshape, pySplit_sep_append _ _ _ hn1, pySplit_no_sep _ _ hn2]
    have hws1 : ∀ ch ∈ [f1, r1], ch.isWhitespace = false := by
      intro ch hm
      rcases List.mem_cons.mp hm with rfl | hm
      · exact alpha_not_ws hf1
      · rcases List.mem_cons.mp hm with rfl | hm
        · exact digit_not_ws hr1
        · simp at hm
    have hws2 : ∀ ch ∈ [f2, r2], ch.isWhitespace = false := by
      intro ch hm
      rcases List.mem_cons.mp hm with rfl | hm
      · exact alpha_not_ws hf2
      · rcases List.mem_cons.mp hm with rfl | hm
        · exact digit_not_ws hr2
        · simp at hm
    have hcm1 : ',' ∉ [f1, r1] := by
      intro hm
      rcases List.mem_cons.mp hm with hm | hm
      · exact alpha_not_comma hf1 hm.symm
      · rcases List.mem_cons.mp hm with hm | hm
        · exact digit_not_comma hr1 hm.symm
        · simp at hm
    have hfail : tryFormat1 [f1, r1, '-', f2, r2] = none := by
      unfold tryFormat1
      rw [if_pos (by rw [hshape]; exact List.mem_append.mpr (Or.inr (List.mem_cons_self _ _)))]
      simp only [hsplit, pyStrip_eq_self hws1, pySplit_no_sep ',' [f1, r1] hcm1]
    have hdig1 : pyInt [r1.toLower] = some ((r1.toNat - 48 : Nat) : Int) := by
      rw [digit_toLower hr1]
      have := pyInt_digits [r1] (by simp) (by simp [hr1])
      rw [this]
      simp [digitsVal]
    have hdig2 : pyInt [r2.toLower] = some ((r2.toNat - 48 : Nat) : Int) := by
      rw [digit_toLower hr2]
      have := pyInt_digits [r2] (by simp) (by simp [hr2])
      rw [this]
      simp [digitsVal]
    have hok : tryFormat2 [f1, r1, '-', f2, r2] =
        some (((r1.toNat - 48 : Nat) : Int) - 1, (f1.toLower.toNat : Int) - 97,
              ((r2.toNat - 48 : Nat) : Int) - 1, (f2.toLower.toNat : Int) - 97) := by
      unfold tryFormat2
      rw [if_pos ⟨by rw [hshape]; exact List.mem_append.mpr (Or.inr (List.mem_cons_self _ _)),
                  by simp⟩]
      simp only [hsplit, pyStrip_eq_self hws1, pyStrip_eq_self hws2, List.map_cons,
        List.map_nil, hdig1, hdig2]
    unfold parse_move
    rw [hfail, hok]

/-- Witness for C8: `'2,0-3,1'` parses to `(2, 0, 3, 1)` and `'a6-b5'`
parses to `(5, 0, 4, 1)`. -/
theorem parse_move_well_formed_witness :
    parse_move ['2', ',', '0', '-', '3', ',', '1'] = some (2, 0, 3, 1) ∧
    parse_move ['a', '6', '-', 'b', '5'] = some (5, 0, 4, 1) := by
  constructor
  · have h := parse_move_well_formed.1 ['2'] ['0'] ['3'] ['1']
      (by decide) (by decide) (by decide) (by decide)
      (by decide) (by decide) (by decide) (by decide)
    exact h.trans (by decide)
  · have h := parse_move_well_formed.2 'a' '6' 'b' '5'
      (by decide) (by decide) (by decide) (by decide)
    exact h.trans (by decide)

/-! ### Characterizing `get_valid_moves` -/

theorem list_ne_nil_iff_exists {α : Type} (l : List α) :
    l ≠ [] ↔ ∃ x, x ∈ l := by
  cases l <;> simp

theorem jump_step_eq (b : Board) (row col : Int) (r : Bool) (d : Int × Int) :
    (if ¬ is_valid_position (row + 2*d.1) (col + 2*d.2) then none
     else if get_piece b (row + 2*d.1) (col + 2*d.2) ≠ EMPTY then none
     else if r then
       if ¬ pieceIsBlack (get_piece b (row + d.1) (col + d.2)) then none
       else some (row + 2*d.1, col + 2*d.2)
     else
       if ¬ pieceIsRed (get_piece b (row + d.1) (col + d.2)) then none
       else some (row + 2*d.1, col + 2*d.2)) =
    (if capture_available b row col r d then some (row + 2*d.1, col + 2*d.2)
     else none) := by
  unfold capture_available
  by_cases h1 : is_valid_position (row + 2*d.1) (col + 2*d.2) <;>
    by_cases h2 : get_piece b (row + 2*d.1) (col + 2*d.2) = EMPTY <;>
    cases r <;>
    by_cases h3 : pieceIsBlack (get_piece b (row + d.1) (col + d.2)) = true <;>
    by_cases h4 : pieceIsRed (get_piece b (row + d.1) (col + d.2)) = true <;>
    simp [h1, h2, h3, h4]

theorem mem_get_jump_moves {b : Board} {row col : Int} {k r : Bool}
    {t : Int × Int} :
    t ∈ get_jump_moves b row col k r ↔
      ∃ d ∈ directionsFor k r,
        capture_available b row col r d ∧ t = (row + 2*d.1, col + 2*d.2) := by
  unfold get_jump_moves
  rw [List.mem_filterMap]
  constructor
  · rintro ⟨d, hd, hf⟩
    simp only [jump_step_eq] at hf
    by_cases hc : capture_available b row col r d
    · rw [if_pos hc, Option.some_inj] at hf
      exact ⟨d, hd, hc, hf.symm⟩
    · rw [if_neg hc] at hf
      simp at hf
  · rintro ⟨d, hd, hc, rfl⟩
    refine ⟨d, hd, ?_⟩
    simp only [jump_step_eq]
    rw [if_pos hc]

theorem move_step_eq (b : Board) (row col : Int) (d : Int × Int) :
    (if is_valid_position (row + d.1) (col + d.2) ∧
        get_piece b (row + d.1) (col + d.2) = EMPTY then
       some (row + d.1, col + d.2)
     else none) =
    (if step_available b row col d then some (row + d.1, col + d.2)
     else none) := by
  unfold step_available
  by_cases h1 : is_valid_position (row + d.1) (col + d.2) <;>
    by_cases h2 : get_piece b (row + d.1) (col + d.2) = EMPTY <;>
    simp [h1, h2]

theorem mem_step_moves {b : Board} {row col : Int} {k r : Bool}
    {t : Int × Int} :
    t ∈ (directionsFor k r).filterMap (fun d =>
        if is_valid_position (row + d.1) (col + d.2) ∧
           get_piece b (row + d.1) (col + d.2) = EMPTY then
          some (row + d.1, col + d.2)
        else none) ↔
      ∃ d ∈ directionsFor k r,
        step_available b row col d ∧ t = (row + d.1, col + d.2) := by
  rw [List.mem_filterMap]
  constructor
  · rintro ⟨d, hd, hf⟩
    simp only [move_step_eq] at hf
    by_cases hs : step_available b row col d
    · rw [if_pos hs, Option.some_inj] at hf
      exact ⟨d, hd, hs, hf.symm⟩
    · rw [if_neg hs] at hf
      simp at hf
  · rintro ⟨d, hd, hs, rfl⟩
    refine ⟨d, hd, ?_⟩
    simp only [move_step_eq]
    rw [if_pos hs]

theorem gvm_of_match {b : Board} {cp : Piece} {row col : Int}
    (hmatch : (cp = RED ∧ pieceIsRed (get_piece b row col) = true) ∨
              (cp = BLACK ∧ pieceIsBlack (get_piece b row col) = true)) :
    get_valid_moves b cp row col =
      (if get_jump_moves b row col (pieceIsKing (get_piece b row col))
            (pieceIsRed (get_piece b row col)) ≠ [] then
        get_jump_moves b row col (pieceIsKing (get_piece b row col))
          (pieceIsRed (get_piece b row col))
      else
        (directionsFor (pieceIsKing (get_piece b row col))
            (pieceIsRed (get_piece b row col))).filterMap (fun d =>
          if is_valid_position (row + d.1) (col + d.2) ∧
             get_piece b (row + d.1) (col + d.2) = EMPTY then
            some (row + d.1, col + d.2)
          else none)) := by
  have hne : ¬ (get_piece b row col = EMPTY) := by
    rcases hmatch with ⟨_, hp⟩ | ⟨_, hp⟩ <;>
      (intro he; rw [he] at hp; exact absurd hp (by decide))
  have hg1 : ¬ (¬ pieceIsRed (get_piece b row col) = true ∧ cp = RED) := by
    rcases hmatch with ⟨hcp, hp⟩ | ⟨hcp, hp⟩
    · rintro ⟨hn, _⟩; exact hn hp
    · rintro ⟨_, hr⟩; rw [hcp] at hr; exact absurd hr (by decide)
  have hg2 : ¬ (¬ pieceIsBlack (get_piece b row col) = true ∧ cp = BLACK) := by
    rcases hmatch with ⟨hcp, hp⟩ | ⟨hcp, hp⟩
    · rintro ⟨_, hr⟩; rw [hcp] at hr; exact absurd hr (by decide)
    · rintro ⟨hn, _⟩; exact hn hp
  simp only [get_valid_moves, if_neg hne, if_neg hg1, if_neg hg2]

/-- C2: for a piece of the side to move, the mandatory capture rule holds:
when at least one capture is available for that piece, `get_valid_moves`
returns exactly the capture destinations (no simple step is offered);
when no capture is available, it returns exactly the adjacent empty
on-board diagonal cells in the piece's legal directions. -/
theorem mandatory_capture (b : Board) (cp : Piece) (row col : Int)
    (hmatch : (cp = RED ∧ pieceIsRed (get_piece b row col) = true) ∨
              (cp = BLACK ∧ pieceIsBlack (get_piece b row col) = true)) :
    ((∃ d ∈ directionsFor (pieceIsKing (get_piece b row col))
          (pieceIsRed (get_piece b row col)),
        capture_available b row col (pieceIsRed (get_piece b row col)) d) →
      ∀ t : Int × Int, t ∈ get_valid_moves b cp row col ↔
        ∃ d ∈ directionsFor (pieceIsKing (get_piece b row col))
            (pieceIsRed (get_piece b row col)),
          capture_available b row col (pieceIsRed (get_piece b row col)) d ∧
          t = (row + 2*d.1, col + 2*d.2)) ∧
    ((¬ ∃ d ∈ directionsFor (pieceIsKing (get_piece b row col))
          (pieceIsRed (get_piece b row col)),
        capture_available b row col (pieceIsRed (get_piece b row col)) d) →
      ∀ t : Int × Int, t ∈ get_valid_moves b cp row col ↔
        ∃ d ∈ directionsFor (pieceIsKing (get_piece b row col))
            (pieceIsRed (get_piece b row col)),
          step_available b row col d ∧ t = (row + d.1, col + d.2)) := by
  have hjumps : get_jump_moves b row col (pieceIsKing (get_piece b row col))
      (pieceIsRed (get_piece b row col)) ≠ [] ↔
      ∃ d ∈ directionsFor (pieceIsKing (get_piece b row col))
          (pieceIsRed (get_piece b row col)),
        capture_available b row col (pieceIsRed (get_piece b row col)) d := by
    rw [list_ne_nil_iff_exists]
    constructor
    · rintro ⟨t, ht⟩
      obtain ⟨d, hd, hc, _⟩ := mem_get_jump_moves.mp ht
      exact ⟨d, hd, hc⟩
    · rintro ⟨d, hd, hc⟩
      exact ⟨(row + 2*d.1, col + 2*d.2), mem_get_jump_moves.mpr ⟨d, hd, hc, rfl⟩⟩
  rw [gvm_of_match hmatch]
  constructor
  · intro hcap t
    rw [if_pos (hjumps.mpr hcap)]
    exact mem_get_jump_moves
  · intro hcap t
    rw [if_neg (fun hne => hcap (hjumps.mp hne))]
    exact mem_step_moves

/-- Witness for C2: the opening red man at (5, 0) has no capture available,
and the simple step to (4, 1) is among its legal destinations. -/
theorem mandatory_capture_witness :
    (4, 1) ∈ get_valid_moves initialBoard RED 5 0 :=
  ((mandatory_capture initialBoard RED 5 0 (Or.inl ⟨rfl, by decide⟩)).2
    (by decide) (4, 1)).mpr (by decide)

/-! ### Analyzing a successful `make_move` -/

theorem valid_iff {r c : Int} :
    is_valid_position r c ↔ (0 ≤ r ∧ r < 8 ∧ 0 ≤ c ∧ c < 8) := Iff.rfl

theorem dir_entries {k r : Bool} {d : Int × Int}
    (hd : d ∈ directionsFor k r) :
    (d.1 = -1 ∨ d.1 = 1) ∧ (d.2 = -1 ∨ d.2 = 1) := by
  cases k <;> cases r <;> fin_cases hd <;> simp

theorem get_piece_valid {b : Board} {r c : Int}
    (h : get_piece b r c ≠ EMPTY) : is_valid_position r c := by
  by_cases hv : is_valid_position r c
  · exact hv
  · rw [get_piece, if_neg hv] at h
    exact absurd rfl h

/-- Any member of `get_valid_moves` is either a one-step move to an available
step square or a two-step move to an available capture square, along one of
the piece's directions. -/
theorem mem_gvm_cases {b : Board} {cp : Piece} {fr fc tr tc : Int}
    (h : (tr, tc) ∈ get_valid_moves b cp fr fc) :
    get_piece b fr fc ≠ EMPTY ∧
    ∃ d ∈ directionsFor (pieceIsKing (get_piece b fr fc))
        (pieceIsRed (get_piece b fr fc)),
      (step_available b fr fc d ∧ (tr, tc) = (fr + d.1, fc + d.2)) ∨
      (capture_available b fr fc (pieceIsRed (get_piece b fr fc)) d ∧
        (tr, tc) = (fr + 2*d.1, fc + 2*d.2)) := by
  simp only [get_valid_moves] at h
  by_cases h0 : get_piece b fr fc = EMPTY
  · rw [if_pos h0] at h; simp at h
  rw [if_neg h0] at h
  by_cases hg1 : ¬ pieceIsRed (get_piece b fr fc) = true ∧ cp = RED
  · rw [if_pos hg1] at h; simp at h
  rw [if_neg hg1] at h
  by_cases hg2 : ¬ pieceIsBlack (get_piece b fr fc) = true ∧ cp = BLACK
  · rw [if_pos hg2] at h; simp at h
  rw [if_neg hg2] at h
  refine ⟨h0, ?_⟩
  by_cases hj : get_jump_moves b fr fc (pieceIsKing (get_piece b fr fc))
      (pieceIsRed (get_piece b fr fc)) ≠ []
  · rw [if_pos hj] at h
    obtain ⟨d, hd, hc, ht⟩ := mem_get_jump_moves.mp h
    exact ⟨d, hd, Or.inr ⟨hc, ht⟩⟩
  · rw [if_neg hj] at h
    obtain ⟨d, hd, hs, ht⟩ := mem_step_moves.mp h
    exact ⟨d, hd, Or.inl ⟨hs, ht⟩⟩

theorem mem_gvm_valid {b : Board} {cp : Piece} {fr fc tr tc : Int}
    (h : (tr, tc) ∈ get_valid_moves b cp fr fc) :
    is_valid_position fr fc ∧ is_valid_position tr tc := by
  obtain ⟨h0, d, hd, hcase⟩ := mem_gvm_cases h
  refine ⟨get_piece_valid h0, ?_⟩
  rcases hcase with ⟨hs, ht⟩ | ⟨hc, ht⟩
  · rw [Prod.mk.injEq] at ht
    rw [ht.1, ht.2]
    exact hs.1
  · rw [Prod.mk.injEq] at ht
    rw [ht.1, ht.2]
    exact hc.1

/-- Inversion of a successful `make_move`: the preconditions held, the final
board is `moveBoard`, `game_over`/`winner` come from `check_game_over` run on
the moved board with the mover still to play, and the player switches unless
the move was a capture with a further capture available. -/
theorem make_move_success_inv (g : CheckersGame) (fr fc tr tc : Int)
    (g' : CheckersGame) (h : make_move g fr fc tr tc = (true, g')) :
    g.game_over = false ∧
    (tr, tc) ∈ get_valid_moves g.board g.current_player fr fc ∧
    g'.board = moveBoard g.board fr fc tr tc ∧
    g'.game_over =
      (check_game_over { g with board := moveBoard g.board fr fc tr tc }).game_over ∧
    g'.winner =
      (check_game_over { g with board := moveBoard g.board fr fc tr tc }).winner ∧
    g'.current_player =
      (if (tr - fr).natAbs ≠ 2 ∨
          has_jumps (moveBoard g.board fr fc tr tc) tr tc = false then
        (if g.current_player = RED then BLACK else RED)
      else g.current_player) := by
  by_cases hgo : g.game_over
  · rw [make_move, if_pos hgo] at h
    exact absurd (congrArg Prod.fst h) (by simp)
  · by_cases hmem : (tr, tc) ∈ get_valid_moves g.board g.current_player fr fc
    · have hgo' : g.game_over = false := by simpa using hgo
      rw [make_move_success_eq g fr fc tr tc hgo' hmem] at h
      have hx := congrArg Prod.snd h
      simp only at hx
      subst hx
      have hb : (check_game_over { g with board := moveBoard g.board fr fc tr tc }).board =
          moveBoard g.board fr fc tr tc :=
        (cgo_fields _).1
      have hcp : (check_game_over { g with board := moveBoard g.board fr fc tr tc }).current_player =
          g.current_player :=
        (cgo_fields _).2.1
      rw [hb, hcp]
      by_cases hsw : (tr - fr).natAbs ≠ 2 ∨
          has_jumps (moveBoard g.board fr fc tr tc) tr tc = false
      · rw [if_pos hsw, if_pos hsw]
        exact ⟨hgo', hmem, rfl, rfl, rfl, rfl⟩
      · rw [if_neg hsw, if_neg hsw]
        exact ⟨hgo', hmem, hb, rfl, rfl, hcp⟩
    · rw [make_move, if_neg hgo, if_pos hmem] at h
      exact absurd (congrArg Prod.fst h) (by simp)

/-- Cell-level description of `moveBoard` for a move along a diagonal: the
origin is cleared, the destination receives the (possibly promoted) piece,
the midpoint is cleared exactly when the move is two steps long, and every
other cell is untouched. -/
theorem moveBoard_spec (b : Board) (hwf : BoardWF b) {fr fc tr tc : Int}
    (hvf : is_valid_position fr fc) (hvt : is_valid_position tr tc)
    (hd : ∃ d : Int × Int, (d.1 = -1 ∨ d.1 = 1) ∧ (d.2 = -1 ∨ d.2 = 1) ∧
          ((tr = fr + d.1 ∧ tc = fc + d.2) ∨
           (tr = fr + 2*d.1 ∧ tc = fc + 2*d.2))) :
    boardGet (moveBoard b fr fc tr tc) fr fc = EMPTY ∧
    boardGet (moveBoard b fr fc tr tc) tr tc =
      movedPiece (boardGet b fr fc) tr ∧
    ((tr - fr).natAbs = 2 →
      boardGet (moveBoard b fr fc tr tc) ((fr + tr) / 2) ((fc + tc) / 2) = EMPTY) ∧
    (∀ r c : Int, is_valid_position r c → (r, c) ≠ (fr, fc) → (r, c) ≠ (tr, tc) →
      ((tr - fr).natAbs = 2 → (r, c) ≠ ((fr + tr) / 2, (fc + tc) / 2)) →
      boardGet (moveBoard b fr fc tr tc) r c = boardGet b r c) := by
  obtain ⟨d, hd1, hd2, hcase⟩ := hd
  have hwf1 : BoardWF (boardSet b fr fc EMPTY) := boardWF_boardSet hwf fr fc EMPTY
  rw [valid_iff] at hvf hvt
  rcases hcase with ⟨h1, h2⟩ | ⟨h1, h2⟩
  · -- simple step: to = from + d
    subst h1; subst h2
    have hne2 : ((fr + d.1) - fr).natAbs ≠ 2 := by
      rcases hd1 with h | h <;> omega
    have hneft : (fr + d.1, fc + d.2) ≠ (fr, fc) := by
      intro hp; rw [Prod.mk.injEq] at hp
      rcases hd1 with h | h <;> omega
    simp only [moveBoard, if_neg hne2]
    refine ⟨?_, ?_, fun habs => absurd habs hne2, ?_⟩
    · rw [boardGet_boardSet_ne hwf1 _ (valid_iff.mpr (by omega))
        (valid_iff.mpr (by omega)) hneft]
      exact boardGet_boardSet_self hwf _ (valid_iff.mpr (by omega))
    · exact boardGet_boardSet_self hwf1 _ (valid_iff.mpr (by omega))
    · intro r c hv hne1 hne3 _
      rw [valid_iff] at hv
      rw [boardGet_boardSet_ne hwf1 _ (valid_iff.mpr (by omega))
        (valid_iff.mpr (by omega)) (Ne.symm hne3)]
      exact boardGet_boardSet_ne hwf _ (valid_iff.mpr (by omega))
        (valid_iff.mpr (by omega)) (Ne.symm hne1)
  · -- jump: to = from + 2d
    subst h1; subst h2
    have heq2 : ((fr + 2*d.1) - fr).natAbs = 2 := by
      rcases hd1 with h | h <;> omega
    have hmr : (fr + (fr + 2*d.1)) / 2 = fr + d.1 := by omega
    have hmc : (fc + (fc + 2*d.2)) / 2 = fc + d.2 := by omega
    have hmidv : is_valid_position (fr + d.1) (fc + d.2) :=
      valid_iff.mpr (by rcases hd1 with h | h <;> rcases hd2 with h' | h' <;> omega)
    have hwf2 : BoardWF (boardSet (boardSet b fr fc EMPTY) (fr + d.1) (fc + d.2) EMPTY) :=
      boardWF_boardSet hwf1 _ _ EMPTY
    have hnemid_f : (fr + d.1, fc + d.2) ≠ (fr, fc) := by
      intro hp; rw [Prod.mk.injEq] at hp
      rcases hd1 with h | h <;> omega
    have hnet_f : (fr + 2*d.1, fc + 2*d.2) ≠ (fr, fc) := by
      intro hp; rw [Prod.mk.injEq] at hp
      rcases hd1 with h | h <;> omega
    have hnet_mid : (fr + 2*d.1, fc + 2*d.2) ≠ (fr + d.1, fc + d.2) := by
      intro hp; rw [Prod.mk.injEq] at hp
      rcases hd1 with h | h <;> omega
    simp only [moveBoard, if_pos heq2, hmr, hmc]
    refine ⟨?_, ?_, fun _ => ?_, ?_⟩
    · rw [boardGet_boardSet_ne hwf2 _ (valid_iff.mpr (by omega))
        (valid_iff.mpr (by omega)) hnet_f]
      rw [boardGet_boardSet_ne hwf1 _ (valid_iff.mpr (by omega)) hmidv hnemid_f]
      exact boardGet_boardSet_self hwf _ (valid_iff.mpr (by omega))
    · exact boardGet_boardSet_self hwf2 _ (valid_iff.mpr (by omega))
    · rw [boardGet_boardSet_ne hwf2 _ hmidv (valid_iff.mpr (by omega)) hnet_mid]
      exact boardGet_boardSet_self hwf1 _ hmidv
    · intro r c hv hne1 hne3 hnem
      have hnem' := hnem heq2
      rw [valid_iff] at hv
      rw [boardGet_boardSet_ne hwf2 _ (valid_iff.mpr (by omega))
        (valid_iff.mpr (by omega)) (Ne.symm hne3)]
      rw [boardGet_boardSet_ne hwf1 _ (valid_iff.mpr (by omega)) hmidv (Ne.symm hnem')]
      exact boardGet_boardSet_ne hwf _ (valid_iff.mpr (by omega))
        (valid_iff.mpr (by omega)) (Ne.symm hne1)

theorem gvm_diag {b : Board} {cp : Piece} {fr fc tr tc : Int}
    (hmem : (tr, tc) ∈ get_valid_moves b cp fr fc) :
    ∃ d : Int × Int, (d.1 = -1 ∨ d.1 = 1) ∧ (d.2 = -1 ∨ d.2 = 1) ∧
      ((tr = fr + d.1 ∧ tc = fc + d.2) ∨
       (tr = fr + 2*d.1 ∧ tc = fc + 2*d.2)) := by
  obtain ⟨h0, d, hd, hcase⟩ := mem_gvm_cases hmem
  obtain ⟨hd1, hd2⟩ := dir_entries hd
  refine ⟨d, hd1, hd2, ?_⟩
  rcases hcase with ⟨_, ht⟩ | ⟨_, ht⟩
  · left; rw [Prod.mk.injEq] at ht; exact ht
  · right; rw [Prod.mk.injEq] at ht; exact ht

theorem fst_true_pair {p : Bool × CheckersGame} (h : p.1 = true) :
    p = (true, p.2) := by
  rw [← h]

/-- C3: on every successful `make_move`, the destination cell holds the moved
piece after the promotion rule (a red man landing on row 0 or a black man
landing on row 7 becomes a king), and the side to move stays the same if and
only if the move was a capture (row distance 2) and the moved piece — in its
post-promotion kind on the updated board — has a further capture available;
otherwise the side to move toggles. -/
theorem promotion_and_turn_continuation (g : CheckersGame) (fr fc tr tc : Int)
    (g' : CheckersGame) (hwf : BoardWF g.board)
    (h : make_move g fr fc tr tc = (true, g')) :
    boardGet g'.board tr tc = movedPiece (boardGet g.board fr fc) tr ∧
    (g'.current_player = g.current_player ↔
      ((tr - fr).natAbs = 2 ∧ has_jumps g'.board tr tc = true)) := by
  obtain ⟨hgo, hmem, hboard, _, _, hcp⟩ := make_move_success_inv g fr fc tr tc g' h
  obtain ⟨hvf, hvt⟩ := mem_gvm_valid hmem
  have hmb := moveBoard_spec g.board hwf hvf hvt (gvm_diag hmem)
  constructor
  · rw [hboard]; exact hmb.2.1
  · rw [hboard, hcp]
    by_cases hsw : (tr - fr).natAbs ≠ 2 ∨
        has_jumps (moveBoard g.board fr fc tr tc) tr tc = false
    · rw [if_pos hsw]
      constructor
      · intro habs
        exact absurd habs (toggle_ne g.current_player)
      · rintro ⟨hn2, hj⟩
        rcases hsw with hs | hs
        · exact absurd hn2 hs
        · rw [hj] at hs
          exact absurd hs (by decide)
    · rw [if_neg hsw]
      push_neg at hsw
      have hj : has_jumps (moveBoard g.board fr fc tr tc) tr tc = true := by
        cases hq : has_jumps (moveBoard g.board fr fc tr tc) tr tc
        · exact absurd hq hsw.2
        · rfl
      exact ⟨fun _ => ⟨hsw.1, hj⟩, fun _ => rfl⟩

/-- Witness for C3: the successful opening step (5,0) → (4,1) lands the red
man unpromoted on (4,1), and the turn toggles (the move was no capture). -/
theorem promotion_and_turn_continuation_witness :
    boardGet (make_move initialGame 5 0 4 1).2.board 4 1 =
      movedPiece (boardGet initialGame.board 5 0) 4 ∧
    ((make_move initialGame 5 0 4 1).2.current_player = initialGame.current_player ↔
      (((4 : Int) - 5).natAbs = 2 ∧
        has_jumps (make_move initialGame 5 0 4 1).2.board 4 1 = true)) :=
  promotion_and_turn_continuation initialGame 5 0 4 1
    (make_move initialGame 5 0 4 1).2 initialBoard_WF (fst_true_pair (by decide))

/-- C10: every successful `make_move` changes at most three board cells: the
origin becomes empty, the destination receives the moved (possibly promoted)
piece, and on a capture the midpoint cell becomes empty; every other cell is
unchanged. -/
theorem move_frame (g : CheckersGame) (fr fc tr tc : Int) (g' : CheckersGame)
    (hwf : BoardWF g.board) (h : make_move g fr fc tr tc = (true, g')) :
    boardGet g'.board fr fc = EMPTY ∧
    boardGet g'.board tr tc = movedPiece (boardGet g.board fr fc) tr ∧
    ((tr - fr).natAbs = 2 →
      boardGet g'.board ((fr + tr) / 2) ((fc + tc) / 2) = EMPTY) ∧
    (∀ r c : Int, is_valid_position r c → (r, c) ≠ (fr, fc) → (r, c) ≠ (tr, tc) →
      ((tr - fr).natAbs = 2 → (r, c) ≠ ((fr + tr) / 2, (fc + tc) / 2)) →
      boardGet g'.board r c = boardGet g.board r c) := by
  obtain ⟨hgo, hmem, hboard, _, _, _⟩ := make_move_success_inv g fr fc tr tc g' h
  obtain ⟨hvf, hvt⟩ := mem_gvm_valid hmem
  rw [hboard]
  exact moveBoard_spec g.board hwf hvf hvt (gvm_diag hmem)

/-- Witness for C10: after the opening step (5,0) → (4,1), the origin is
empty, the destination holds the moved piece, and the untouched cell (0,1)
is unchanged. -/
theorem move_frame_witness :
    boardGet (make_move initialGame 5 0 4 1).2.board 5 0 = EMPTY ∧
    boardGet (make_move initialGame 5 0 4 1).2.board 4 1 =
      movedPiece (boardGet initialGame.board 5 0) 4 ∧
    boardGet (make_move initialGame 5 0 4 1).2.board 0 1 =
      boardGet initialGame.board 0 1 := by
  have hmf := move_frame initialGame 5 0 4 1 (make_move initialGame 5 0 4 1).2
    initialBoard_WF (fst_true_pair (by decide))
  exact ⟨hmf.1, hmf.2.1,
    hmf.2.2.2 0 1 (by decide) (by decide) (by decide)
      (fun h2 => absurd h2 (by decide))⟩

/-- `check_game_over` when neither side is eliminated and the game was not
over: it only runs the no-moves scan for `current_player` (which, called from
`make_move`, is still the mover). -/
theorem cgo_no_elim (g : CheckersGame)
    (hr : piece_count g.board pieceIsRed ≠ 0)
    (hb : piece_count g.board pieceIsBlack ≠ 0)
    (hgo : g.game_over = false) :
    check_game_over g =
      (if has_any_moves g.board g.current_player then g
       else { g with game_over := true,
                     winner := some (if g.current_player = RED then BLACK else RED) }) := by
  simp only [check_game_over, if_neg hr, if_neg hb]
  by_cases hm : has_any_moves g.board g.current_player
  · rw [if_pos hm, if_neg]
    rintro ⟨h1, _⟩
    rw [hm] at h1
    exact absurd h1 (by decide)
  · have hm' : has_any_moves g.board g.current_player = false := by
      cases hq : has_any_moves g.board g.current_player
      · rfl
      · exact absurd hq hm
    rw [if_neg hm, if_pos ⟨hm', hgo⟩]

/-- C1 counterexample: in `c1Game` (red man on (2,1), black man on (0,1),
red to move) the successful move (2,1) → (1,0) eliminates nobody, and the
side now to move after the turn switch (black) still has a legal destination
from its piece on (0,1); the claim therefore requires the game to continue
with `gameOver` false, but the code declares the game over (the no-moves
check ran on the mover, before the turn switch). -/
theorem premature_game_over :
    (make_move c1Game 2 1 1 0).1 = true ∧
    piece_count (make_move c1Game 2 1 1 0).2.board pieceIsRed ≠ 0 ∧
    piece_count (make_move c1Game 2 1 1 0).2.board pieceIsBlack ≠ 0 ∧
    (make_move c1Game 2 1 1 0).2.current_player = BLACK ∧
    get_valid_moves (make_move c1Game 2 1 1 0).2.board BLACK 0 1 ≠ [] ∧
    (make_move c1Game 2 1 1 0).2.game_over = true := by
  decide

/-- C1 amended: the terminal no-moves check runs before the turn switch and
examines the mover's side.  After a successful `make_move` in which neither
side was eliminated, the game is declared over exactly when the mover (the
side to move at check time) has no legal destination from any of its
occupied squares, and in that case the mover's opponent is recorded as
winner; the mobility of the side to move after the turn switch is not
consulted. -/
theorem no_moves_check_on_mover (g : CheckersGame) (fr fc tr tc : Int)
    (g' : CheckersGame) (h : make_move g fr fc tr tc = (true, g'))
    (hr : piece_count g'.board pieceIsRed ≠ 0)
    (hb : piece_count g'.board pieceIsBlack ≠ 0) :
    (g'.game_over = true ↔
      has_any_moves g'.board g.current_player = false) ∧
    (g'.game_over = true →
      g'.winner = some (if g.current_player = RED then BLACK else RED)) := by
  obtain ⟨hgo, hmem, hboard, hgo2, hw2, _⟩ := make_move_success_inv g fr fc tr tc g' h
  rw [hboard] at hr hb
  have hcgo : check_game_over { g with board := moveBoard g.board fr fc tr tc } =
      (if has_any_moves (moveBoard g.board fr fc tr tc) g.current_player then
        { g with board := moveBoard g.board fr fc tr tc }
       else { g with board := moveBoard g.board fr fc tr tc,
                     game_over := true,
                     winner := some (if g.current_player = RED then BLACK else RED) }) := by
    have hgen := cgo_no_elim { g with board := moveBoard g.board fr fc tr tc } hr hb hgo
    simpa using hgen
  rw [hboard, hgo2, hw2, hcgo]
  by_cases hm : has_any_moves (moveBoard g.board fr fc tr tc) g.current_player
  · rw [if_pos hm]
    simp [hgo, hm]
  · have hm' : has_any_moves (moveBoard g.board fr fc tr tc) g.current_player = false := by
      cases hq : has_any_moves (moveBoard g.board fr fc tr tc) g.current_player
      · rfl
      · exact absurd hq hm
    rw [if_neg hm]
    simp [hm']

/-- Witness for C1 (amended): on the opening step (5,0) → (4,1) nobody is
eliminated, red (the mover) still has moves afterwards, so the game is not
declared over. -/
theorem no_moves_check_on_mover_witness :
    ((make_move initialGame 5 0 4 1).2.game_over = true ↔
      has_any_moves (make_move initialGame 5 0 4 1).2.board
        initialGame.current_player = false) ∧
    ((make_move initialGame 5 0 4 1).2.game_over = true →
      (make_move initialGame 5 0 4 1).2.winner =
        some (if initialGame.current_player = RED then BLACK else RED)) :=
  no_moves_check_on_mover initialGame 5 0 4 1 (make_move initialGame 5 0 4 1).2
    (fst_true_pair (by decide)) (by decide) (by decide)

end Checkers
